import Mathlib

/-!
Shallow embedding of the GraphRAG query engine
(`docs/workflows/showcases/graphrag/skills/query_graphrag.py`).

Nodes, edges and chunk records are modelled as structures; the JSON file
system is modelled at the I/O boundary: a file that is missing, unreadable
or malformed is an `Option.none` parse outcome, a successfully parsed file
is `Option.some` of its structured content.  Python sets of entity-id
strings become `Finset String`; Python lists keep their order as `List`.
-/

namespace GraphRAG

/-- A graph node, Python dict `{id, text, type}`. -/
structure Node where
  id : String
  text : String
  type : String
deriving DecidableEq

/-- A graph edge, Python dict `{from, to, type}`.  The Python fields `from`
and `to` are Lean keywords, so they are rendered `efrom` and `eto` here. -/
structure Edge where
  efrom : String
  eto : String
  type : String
deriving DecidableEq

/-- The knowledge graph, Python dict `{nodes, edges}`. -/
structure Graph where
  nodes : List Node
  edges : List Edge
deriving DecidableEq

/-- Whether `n` matches `h` at its start (leading-match check used by the
substring test modelling Python's `in` operator on strings). -/
def subListAt : List Char → List Char → Bool
  | [], _ => true
  | _ :: _, [] => false
  | a :: as, b :: bs => a == b && subListAt as bs

/-- Whether `n` occurs contiguously anywhere inside `h`: Python's
`n in h` on strings, over the character lists. -/
def hasSubList : List Char → List Char → Bool
  | n, [] => n.isEmpty
  | n, c :: cs => subListAt n (c :: cs) || hasSubList n cs

/-- Python `needle in hay` for strings. -/
def containsSub (hay needle : String) : Bool :=
  hasSubList needle.toList hay.toList

/-- Python `s.lower()`, character by character. -/
def lowerStr (s : String) : String := String.mk (s.data.map Char.toLower)

/-- Helper for `Python s.split()`: scan the characters, accumulating the
current word reversed; whitespace ends a word, runs of whitespace produce
no empty words. -/
def wordsAux : List Char → List Char → List String
  | cur, [] => if cur.isEmpty then [] else [String.mk cur.reverse]
  | cur, c :: cs =>
    if c.isWhitespace then
      if cur.isEmpty then wordsAux [] cs
      else String.mk cur.reverse :: wordsAux [] cs
    else wordsAux (c :: cur) cs

/-- `search_entities`: lower-case every query term; a node matches when any
term is a substring of `(node.get('id','') + ' ' + node.get('text','')).lower()`;
matches are appended in storage order (the inner loop `break`s after the
first matching term, i.e. each node entry is appended at most once). -/
def search_entities (g : Graph) (query_terms : List String) : List Node :=
  let query_lower := query_terms.map lowerStr
  g.nodes.filter (fun n =>
    query_lower.any (fun term => containsSub (lowerStr (n.id ++ " " ++ n.text)) term))

/-- One edge step of the scan in `get_related_entities`: for the edge `e`,
add `e.eto` when `e.efrom` is in the working set and `e.efrom` when `e.eto` is
(both tests against `related`, the set fixed for the whole scan). -/
def stepEdge (related acc : Finset String) (e : Edge) : Finset String :=
  if e.eto ∈ related then
    insert e.efrom (if e.efrom ∈ related then insert e.eto acc else acc)
  else
    if e.efrom ∈ related then insert e.eto acc else acc

/-- The `new_entities` set built by one full edge scan in
`get_related_entities`. -/
def newEntities (edges : List Edge) (related : Finset String) : Finset String :=
  edges.foldl (stepEdge related) ∅

/-- One iteration of the `for _ in range(depth)` loop:
`related.update(new_entities)`. -/
def expandOnce (g : Graph) (related : Finset String) : Finset String :=
  related ∪ newEntities g.edges related

/-- `get_related_entities`: start from `set(entity_ids)` and run
`depth` level-synchronous full-edge-scan rounds. -/
def get_related_entities (g : Graph) (entity_ids : Finset String) : Nat → Finset String
  | 0 => entity_ids
  | d + 1 => expandOnce g (get_related_entities g entity_ids d)

/-- `get_subgraph`: nodes filtered to ids in `entity_ids` (storage order),
edges filtered to both endpoints in `entity_ids`. -/
def get_subgraph (g : Graph) (entity_ids : Finset String) : Graph :=
  { nodes := g.nodes.filter (fun n => decide (n.id ∈ entity_ids)),
    edges := g.edges.filter (fun e => decide (e.efrom ∈ entity_ids) && decide (e.eto ∈ entity_ids)) }

/-- An entity inside a chunk record, Python dict `{id, type, text}`. -/
structure ChunkEntity where
  id : String
  type : String
  text : String
deriving DecidableEq

/-- A relationship inside a chunk record, `{from, to, type}`. -/
structure ChunkRel where
  efrom : String
  eto : String
  type : String
deriving DecidableEq

/-- A parsed chunk-record artifact `entities_CHUNK-*.json`
(`data.get('entities', [])` and `data.get('relationships', [])` default to
`[]`, folded into the parse). -/
structure ChunkRecord where
  chunk_id : String
  entities : List ChunkEntity
  relationships : List ChunkRel
deriving DecidableEq

/-- A chunk included in the locator's result, annotated with its
originating file. -/
structure AnnotatedChunk where
  chunk_id : String
  entities : List ChunkEntity
  relationships : List ChunkRel
  file : String
deriving DecidableEq

/-- The intersection test of `find_chunks_with_entities`:
`any(eid in chunk_entity_ids for eid in entity_ids)`. -/
def chunkIntersects (entity_ids : Finset String) (d : ChunkRecord) : Bool :=
  (d.entities.map ChunkEntity.id).any (fun i => decide (i ∈ entity_ids))

/-- `find_chunks_with_entities`: scan the chunk directory (modelled as the
list of `(filename, parse outcome)` pairs in enumeration order); every file
is opened and parsed with `json.load`, whose failure on a malformed file is
an uncaught exception (`Except.error`) aborting the scan; a parsed record
is kept iff its entity-id set intersects `entity_ids`, annotated with its
file name. -/
def find_chunks_with_entities (entity_ids : Finset String) :
    List (String × Option ChunkRecord) → Except String (List AnnotatedChunk)
  | [] => Except.ok []
  | (name, Option.none) :: _ =>
      Except.error ("failed to parse chunk artifact " ++ name)
  | (name, Option.some d) :: rest =>
      match find_chunks_with_entities entity_ids rest with
      | Except.error e => Except.error e
      | Except.ok cs =>
          if chunkIntersects entity_ids d then
            Except.ok ({ chunk_id := d.chunk_id, entities := d.entities,
                         relationships := d.relationships, file := name } :: cs)
          else
            Except.ok cs

/-- The parsed content of the graph file before any shape check: each of
`nodes` / `edges` may be absent from the JSON object. -/
structure RawDoc where
  nodes : Option (List Node)
  edges : Option (List Edge)
deriving DecidableEq

/-- `load_graph`: `json.load(open(graph_file))`.  The argument models the
outcome of open-and-parse (`none` = file missing, unreadable or not valid
JSON, which raises and aborts).  Whatever parses is returned unchanged:
the function performs no validation of the loaded document's shape. -/
def load_graph (source : Option RawDoc) : Except String RawDoc :=
  match source with
  | Option.none => Except.error "GraphLoadError: source missing, unreadable, or not valid structured data"
  | Option.some d => Except.ok d

/-- The `statistics` block of a success result. -/
structure Stats where
  direct_matches : Nat
  total_related : Nat
  chunks_found : Nat
  search_depth : Nat
deriving DecidableEq

/-- The result object written by `main`: either the `no_matches` dict
(query, message, suggestions) or the `success` dict (query, matches,
counts, the chunk list capped at 20, subgraph counts and data, and the
statistics block). -/
inductive QueryResult where
  | no_matches (query message : String) (suggestions : List String) : QueryResult
  | success (query : String) (matching_entities : List Node)
      (total_related_entities relevant_chunks : Nat)
      (chunks : List AnnotatedChunk)
      (subgraph_node_count subgraph_edge_count : Nat)
      (subgraph_data : Graph)
      (statistics : Stats) : QueryResult
deriving DecidableEq

/-- `query.lower().split()`: whitespace tokenization discarding empty
tokens. -/
def tokenize (query : String) : List String :=
  wordsAux [] (lowerStr query).data

/-- The query pipeline of `main` (after `load_graph` succeeded): search,
then either the static `no_matches` result, or expand / locate chunks /
induce the subgraph and assemble the `success` result.  An uncaught parse
exception from the chunk scan propagates as `Except.error`. -/
def run_query (query : String) (g : Graph)
    (files : List (String × Option ChunkRecord)) (max_depth : Nat) :
    Except String QueryResult :=
  let matching_entities := search_entities g (tokenize query)
  if matching_entities.isEmpty then
    Except.ok (QueryResult.no_matches query "No entities found matching the query"
      ["Try broader terms", "Check spelling", "Use key concepts"])
  else
    let entity_ids := (matching_entities.map Node.id).toFinset
    let related_ids := get_related_entities g entity_ids max_depth
    match find_chunks_with_entities related_ids files with
    | Except.error e => Except.error e
    | Except.ok relevant_chunks =>
        let subgraph := get_subgraph g related_ids
        Except.ok (QueryResult.success query matching_entities
          related_ids.card relevant_chunks.length (relevant_chunks.take 20)
          subgraph.nodes.length subgraph.edges.length subgraph
          { direct_matches := matching_entities.length,
            total_related := related_ids.card,
            chunks_found := relevant_chunks.length,
            search_depth := max_depth })

/-- All identifiers present in `g`: node ids together with the endpoint
ids occurring in the edge list. -/
def idsIn (g : Graph) : Finset String :=
  (g.nodes.map Node.id).toFinset ∪ (g.edges.map Edge.efrom).toFinset
    ∪ (g.edges.map Edge.eto).toFinset

/-- Undirected adjacency induced by the edge list. -/
def adjacent (g : Graph) (u v : String) : Prop :=
  ∃ e ∈ g.edges, (e.efrom = u ∧ e.eto = v) ∨ (e.efrom = v ∧ e.eto = u)

/-- `withinHops g S h v`: the undirected edge-distance from the seed set
`S` to `v` is at most `h` (there is a walk of length at most `h` along
edges of `g` from some seed to `v`). -/
def withinHops (g : Graph) (seeds : Finset String) : Nat → String → Prop
  | 0, v => v ∈ seeds
  | h + 1, v => withinHops g seeds h v ∨ ∃ u, withinHops g seeds h u ∧ adjacent g u v

/-- The 3-node chain A - B - C from the spec's scenarios. -/
def chainGraph : Graph :=
  { nodes := [{ id := "A", text := "CISO role", type := "ROLE" },
              { id := "B", text := "MFA concept", type := "CONCEPT" },
              { id := "C", text := "unrelated", type := "CONCEPT" }],
    edges := [{ efrom := "A", eto := "B", type := "RELATES_TO" },
              { efrom := "B", eto := "C", type := "RELATES_TO" }] }

/-- A concrete well-formed chunk record used in concrete scenarios. -/
def sampleRecord : ChunkRecord :=
  { chunk_id := "CHUNK-001",
    entities := [{ id := "A", type := "ROLE", text := "CISO" }],
    relationships := [] }

/-- A concrete one-artifact chunk directory whose single artifact parses. -/
def sampleFiles : List (String × Option ChunkRecord) :=
  [("good.json", Option.some sampleRecord)]


lemma mem_stepEdge (related acc : Finset String) (e : Edge) (x : String) :
    x ∈ stepEdge related acc e ↔
      (e.efrom ∈ related ∧ x = e.eto) ∨ (e.eto ∈ related ∧ x = e.efrom) ∨ x ∈ acc := by
  unfold stepEdge
  split_ifs with h1 h2 h3 <;> (try simp [Finset.mem_insert]) <;> tauto

lemma mem_foldl_stepEdge (related : Finset String) (l : List Edge) :
    ∀ (acc : Finset String) (x : String),
      x ∈ l.foldl (stepEdge related) acc ↔
        x ∈ acc ∨ ∃ e ∈ l, (e.efrom ∈ related ∧ x = e.eto) ∨ (e.eto ∈ related ∧ x = e.efrom) := by
  induction l with
  | nil => intro acc x; simp
  | cons e l ih =>
    intro acc x
    rw [List.foldl_cons, ih, mem_stepEdge]
    constructor
    · rintro ((⟨ha, hb⟩ | ⟨ha, hb⟩ | hacc) | ⟨e', he', hp⟩)
      · exact Or.inr ⟨e, List.mem_cons_self e l, Or.inl ⟨ha, hb⟩⟩
      · exact Or.inr ⟨e, List.mem_cons_self e l, Or.inr ⟨ha, hb⟩⟩
      · exact Or.inl hacc
      · exact Or.inr ⟨e', List.mem_cons_of_mem e he', hp⟩
    · rintro (hacc | ⟨e', he', hp⟩)
      · exact Or.inl (Or.inr (Or.inr hacc))
      · rcases List.mem_cons.mp he' with rfl | htl
        · rcases hp with h | h
          · exact Or.inl (Or.inl h)
          · exact Or.inl (Or.inr (Or.inl h))
        · exact Or.inr ⟨e', htl, hp⟩

lemma mem_newEntities (edges : List Edge) (related : Finset String) (x : String) :
    x ∈ newEntities edges related ↔
      ∃ e ∈ edges, (e.efrom ∈ related ∧ x = e.eto) ∨ (e.eto ∈ related ∧ x = e.efrom) := by
  unfold newEntities
  rw [mem_foldl_stepEdge]
  constructor
  · rintro (h | h)
    · exact absurd h (Finset.not_mem_empty x)
    · exact h
  · exact Or.inr

lemma mem_expandOnce (g : Graph) (related : Finset String) (x : String) :
    x ∈ expandOnce g related ↔ x ∈ related ∨ ∃ u ∈ related, adjacent g u x := by
  unfold expandOnce
  rw [Finset.mem_union, mem_newEntities]
  unfold adjacent
  constructor
  · rintro (h | ⟨e, he, ⟨hm, rfl⟩ | ⟨hm, rfl⟩⟩)
    · exact Or.inl h
    · exact Or.inr ⟨e.efrom, hm, e, he, Or.inl ⟨rfl, rfl⟩⟩
    · exact Or.inr ⟨e.eto, hm, e, he, Or.inr ⟨rfl, rfl⟩⟩
  · rintro (h | ⟨u, hu, e, he, ⟨rfl, rfl⟩ | ⟨rfl, rfl⟩⟩)
    · exact Or.inl h
    · exact Or.inr ⟨e, he, Or.inl ⟨hu, rfl⟩⟩
    · exact Or.inr ⟨e, he, Or.inr ⟨hu, rfl⟩⟩

lemma withinHops_zero (g : Graph) (S : Finset String) (v : String) :
    withinHops g S 0 v ↔ v ∈ S := Iff.rfl

lemma withinHops_succ (g : Graph) (S : Finset String) (n : Nat) (v : String) :
    withinHops g S (n + 1) v ↔
      withinHops g S n v ∨ ∃ u, withinHops g S n u ∧ adjacent g u v := Iff.rfl

/-- C2: for every graph `G`, seed set `S` and hop budget `h`, the
level-synchronous expander returns exactly the identifiers whose undirected
edge-distance from `S` along the edge list is at most `h`; in particular on
the 3-node chain A - B - C with seed `{A}` and `h = 2` the result is
`{A, B, C}`. -/
theorem expander_is_bounded_hop_distance :
    (∀ (g : Graph) (S : Finset String) (h : Nat) (v : String),
        v ∈ get_related_entities g S h ↔ withinHops g S h v)
  ∧ get_related_entities chainGraph {"A"} 2 = ({"A", "B", "C"} : Finset String) := by
  constructor
  · intro g S h
    induction h with
    | zero => intro v; exact Iff.rfl
    | succ n ih =>
      intro v
      show v ∈ expandOnce g (get_related_entities g S n) ↔ _
      rw [mem_expandOnce, withinHops_succ]
      constructor
      · rintro (hv | ⟨u, hu, hadj⟩)
        · exact Or.inl ((ih v).mp hv)
        · exact Or.inr ⟨u, (ih u).mp hu, hadj⟩
      · rintro (hv | ⟨u, hu, hadj⟩)
        · exact Or.inl ((ih v).mpr hv)
        · exact Or.inr ⟨u, (ih u).mpr hu, hadj⟩
  · decide

/-- C7: the expander's result is monotonically non-decreasing in the hop
budget: `expand(G,S,h) ⊆ expand(G,S,h+1)`. -/
theorem expander_monotone_in_hops (g : Graph) (S : Finset String) (h : Nat) :
    get_related_entities g S h ⊆ get_related_entities g S (h + 1) := by
  intro x hx
  show x ∈ expandOnce g (get_related_entities g S h)
  rw [mem_expandOnce]
  exact Or.inl hx

/-- C8: the expander's result always retains the seed set,
`expand(G,S,h) ⊇ S`, and with `h = 0` it is exactly the seed set. -/
theorem expander_retains_seed_set (g : Graph) (S : Finset String) (h : Nat) :
    S ⊆ get_related_entities g S h ∧ get_related_entities g S 0 = S := by
  constructor
  · induction h with
    | zero => exact fun x hx => hx
    | succ n ih =>
      intro x hx
      show x ∈ expandOnce g (get_related_entities g S n)
      rw [mem_expandOnce]
      exact Or.inl (ih hx)
  · rfl

/-- C1: the induced subgraph's node list is exactly the nodes of `G` whose
id is in `E`, in storage order, and an edge of `G` is in its edge list iff
both endpoints lie in `E ∩ (ids present in G)` (for an edge of `G` both
endpoints are ids present in `G`, so no edge referencing an id outside `E`
is ever included). -/
theorem subgraph_is_exact_induction (g : Graph) (E : Finset String) :
    (get_subgraph g E).nodes = g.nodes.filter (fun n => decide (n.id ∈ E))
  ∧ (∀ n : Node, n ∈ (get_subgraph g E).nodes ↔ n ∈ g.nodes ∧ n.id ∈ E)
  ∧ (∀ e : Edge, e ∈ (get_subgraph g E).edges ↔
      e ∈ g.edges ∧ e.efrom ∈ E ∩ idsIn g ∧ e.eto ∈ E ∩ idsIn g) := by
  refine ⟨rfl, ?_, ?_⟩
  · intro n
    unfold get_subgraph
    simp [List.mem_filter]
  · intro e
    unfold get_subgraph
    simp only [List.mem_filter, Bool.and_eq_true, decide_eq_true_eq, Finset.mem_inter]
    constructor
    · rintro ⟨he, hf, ht⟩
      refine ⟨he, ⟨hf, ?_⟩, ht, ?_⟩
      · unfold idsIn
        simp only [Finset.mem_union, List.mem_toFinset, List.mem_map]
        exact Or.inl (Or.inr ⟨e, he, rfl⟩)
      · unfold idsIn
        simp only [Finset.mem_union, List.mem_toFinset, List.mem_map]
        exact Or.inr ⟨e, he, rfl⟩
    · rintro ⟨he, ⟨hf, _⟩, ht, _⟩
      exact ⟨he, hf, ht⟩

lemma subListAt_iff (n : List Char) :
    ∀ h : List Char, subListAt n h = true ↔ ∃ rest, h = n ++ rest := by
  induction n with
  | nil => intro h; simp [subListAt]
  | cons a as ih =>
    intro h
    cases h with
    | nil =>
      simp only [subListAt, List.cons_append]
      constructor
      · intro hf; cases hf
      · rintro ⟨rest, hr⟩; cases hr
    | cons b bs =>
      simp only [subListAt, Bool.and_eq_true, beq_iff_eq, ih, List.cons_append,
        List.cons.injEq]
      constructor
      · rintro ⟨rfl, rest, rfl⟩; exact ⟨rest, rfl, rfl⟩
      · rintro ⟨rest, rfl, rfl⟩; exact ⟨rfl, rest, rfl⟩

lemma hasSubList_iff (n : List Char) :
    ∀ h : List Char, hasSubList n h = true ↔ ∃ pre post, h = pre ++ n ++ post := by
  intro h
  induction h with
  | nil =>
    simp only [hasSubList, List.isEmpty_iff]
    constructor
    · rintro rfl; exact ⟨[], [], rfl⟩
    · rintro ⟨pre, post, hp⟩
      rcases List.append_eq_nil.mp (Eq.symm hp) with ⟨h1, h2⟩
      exact (List.append_eq_nil.mp h1).2
  | cons c cs ih =>
    simp only [hasSubList, Bool.or_eq_true, subListAt_iff, ih]
    constructor
    · rintro (⟨rest, hr⟩ | ⟨pre, post, hp⟩)
      · exact ⟨[], rest, by simp [hr]⟩
      · exact ⟨c :: pre, post, by simp [hp]⟩
    · rintro ⟨pre, post, hp⟩
      cases pre with
      | nil => exact Or.inl ⟨post, by simpa using hp⟩
      | cons p ps =>
        rcases List.cons.injEq .. ▸ hp with ⟨rfl, htl⟩
        · exact Or.inr ⟨ps, post, by simpa using hp⟩

lemma containsSub_iff (hay needle : String) :
    containsSub hay needle = true ↔
      ∃ pre post : List Char, hay.toList = pre ++ needle.toList ++ post := by
  unfold containsSub
  exact hasSubList_iff needle.toList hay.toList



lemma mem_search_entities (g : Graph) (terms : List String) (n : Node) :
    n ∈ search_entities g terms ↔
      n ∈ g.nodes ∧ ∃ t ∈ terms,
        containsSub (lowerStr (n.id ++ " " ++ n.text)) (lowerStr t) = true := by
  unfold search_entities
  simp [List.mem_filter, List.any_map, List.any_eq_true, Function.comp]

/-- C5: the entity matcher returns exactly the nodes, in storage order (a
sublist of the node list), for which some lower-cased query term occurs as
a contiguous substring of the lower-cased `id ++ " " ++ text` of the node. -/
theorem search_is_substring_filter_in_order (g : Graph) (terms : List String) :
    List.Sublist (search_entities g terms) g.nodes
  ∧ (∀ n : Node, n ∈ search_entities g terms ↔
      n ∈ g.nodes ∧ ∃ t ∈ terms, ∃ pre post : List Char,
        (lowerStr (n.id ++ " " ++ n.text)).toList = pre ++ (lowerStr t).toList ++ post) := by
  constructor
  · exact List.filter_sublist _
  · intro n
    rw [mem_search_entities]
    constructor
    · rintro ⟨hn, t, ht, hc⟩
      exact ⟨hn, t, ht, (containsSub_iff _ _).mp hc⟩
    · rintro ⟨hn, t, ht, hc⟩
      exact ⟨hn, t, ht, (containsSub_iff _ _).mpr hc⟩

/-- C10: under the data model's id-uniqueness assumption, each node occurs
at most once in the matcher's result even when several query terms match
it (the scan appends a node at most once), so the result is
duplicate-free. -/
theorem search_result_has_no_duplicates (g : Graph) (terms : List String)
    (hid : (g.nodes.map Node.id).Nodup) :
    (search_entities g terms).Nodup := by
  have hn : g.nodes.Nodup := hid.of_map
  exact hn.filter _

/-- Witness for C10 at a concrete input: both terms of the query
`["ciso", "role"]` match node A of the chain graph, and the result is
still duplicate-free. -/
theorem search_result_has_no_duplicates_witness :
    ((chainGraph.nodes.map Node.id).Nodup)
  ∧ (search_entities chainGraph ["ciso", "role"]).Nodup :=
  ⟨by decide, search_result_has_no_duplicates chainGraph ["ciso", "role"] (by decide)⟩

/-- C6: an empty query-term list yields zero matches, and whenever the
match list is empty the pipeline returns the `no_matches` result carrying
the query, the fixed message and the fixed suggestion strings; the
expander, chunk locator and subgraph builder are never invoked — in
particular the result does not depend on the chunk directory at all (no
chunk scan, not even of a malformed artifact). -/
theorem empty_query_short_circuits_no_matches
    (g : Graph) (query : String)
    (files files' : List (String × Option ChunkRecord)) (d : Nat)
    (hempty : search_entities g (tokenize query) = []) :
    search_entities g [] = []
  ∧ run_query query g files d = Except.ok (QueryResult.no_matches query
      "No entities found matching the query"
      ["Try broader terms", "Check spelling", "Use key concepts"])
  ∧ run_query query g files d = run_query query g files' d := by
  have h1 : search_entities g [] = [] := by
    unfold search_entities
    simp
  have h2 : ∀ fs : List (String × Option ChunkRecord),
      run_query query g fs d = Except.ok (QueryResult.no_matches query
        "No entities found matching the query"
        ["Try broader terms", "Check spelling", "Use key concepts"]) := by
    intro fs
    unfold run_query
    simp [hempty]
  exact ⟨h1, h2 files, (h2 files).trans (h2 files').symm⟩

/-- Witness for C6: on the chain graph the query `"zzz"` matches nothing;
the result is the static `no_matches` object even though the chunk
directory holds a malformed artifact, and it equals the result over an
empty chunk directory. -/
theorem empty_query_short_circuits_no_matches_witness :
    search_entities chainGraph (tokenize "zzz") = []
  ∧ (search_entities chainGraph ([] : List String) = []
  ∧ run_query "zzz" chainGraph [("f", Option.none)] 2
      = Except.ok (QueryResult.no_matches "zzz"
          "No entities found matching the query"
          ["Try broader terms", "Check spelling", "Use key concepts"])
  ∧ run_query "zzz" chainGraph [("f", Option.none)] 2
      = run_query "zzz" chainGraph [] 2) :=
  ⟨by decide,
   empty_query_short_circuits_no_matches chainGraph "zzz"
     [("f", Option.none)] [] 2 (by decide)⟩

/-- C3 counterexample: with a malformed artifact `bad.json` in the
directory, the locator aborts with an error instead of skipping it — yet
the same scan without `bad.json` returns the chunk of `good.json`, so the
malformed artifact is not "implicitly excluded with the scan continuing". -/
theorem chunk_locator_aborts_on_malformed_counterexample :
    find_chunks_with_entities {"A"}
        [("bad.json", Option.none), ("good.json", Option.some sampleRecord)]
      = Except.error "failed to parse chunk artifact bad.json"
  ∧ find_chunks_with_entities {"A"} [("good.json", Option.some sampleRecord)]
      = Except.ok [{ chunk_id := "CHUNK-001",
                     entities := [{ id := "A", type := "ROLE", text := "CISO" }],
                     relationships := [], file := "good.json" }] :=
  ⟨rfl, rfl⟩

/-- C3 amended: the chunk locator is strict, not lenient-by-omission: as
soon as any chunk-record artifact in the directory is malformed, the whole
scan fails with an error (the parse exception propagates and aborts the
query), regardless of whether the artifact would have matched. -/
theorem chunk_locator_strict_on_malformed
    (ids : Finset String) (files : List (String × Option ChunkRecord))
    (hmal : ∃ p ∈ files, p.2 = (Option.none : Option ChunkRecord)) :
    ∃ msg, find_chunks_with_entities ids files = Except.error msg := by
  induction files with
  | nil => rcases hmal with ⟨p, hp, _⟩; cases hp
  | cons q rest ih =>
    rcases q with ⟨name, d⟩
    cases d with
    | none => exact ⟨"failed to parse chunk artifact " ++ name, rfl⟩
    | some r =>
      have hrest : ∃ p ∈ rest, p.2 = (Option.none : Option ChunkRecord) := by
        rcases hmal with ⟨p, hp, hnone⟩
        rcases List.mem_cons.mp hp with rfl | hm
        · cases hnone
        · exact ⟨p, hm, hnone⟩
      rcases ih hrest with ⟨msg, hmsg⟩
      refine ⟨msg, ?_⟩
      unfold find_chunks_with_entities
      rw [hmsg]

/-- Witness for C3's amended claim on a one-artifact directory whose only
artifact is malformed. -/
theorem chunk_locator_strict_on_malformed_witness :
    (∃ p ∈ [("bad.json", (Option.none : Option ChunkRecord))],
        p.2 = (Option.none : Option ChunkRecord))
  ∧ ∃ msg, find_chunks_with_entities {"A"} [("bad.json", Option.none)]
      = Except.error msg :=
  ⟨by decide,
   chunk_locator_strict_on_malformed {"A"} [("bad.json", Option.none)] (by decide)⟩

/-- C4 counterexample: a source that parses but lacks both the `nodes` and
the `edges` field — valid structured data that does not match the Graph
shape — is returned successfully by the loader instead of failing with
`GraphLoadError`. -/
theorem load_graph_no_schema_check_counterexample :
    load_graph (Option.some { nodes := Option.none, edges := Option.none })
      = Except.ok { nodes := Option.none, edges := Option.none }
  ∧ ({ nodes := Option.none, edges := Option.none } : RawDoc).nodes = Option.none
  ∧ ({ nodes := Option.none, edges := Option.none } : RawDoc).edges = Option.none :=
  ⟨rfl, rfl, rfl⟩

/-- C4 amended: the graph loader fails (with the `GraphLoadError`-style
abort) iff the source is missing, unreadable or not valid structured data;
it performs no validation of the Graph shape: every successfully parsed
document, even one lacking the `nodes`/`edges` sequences, is returned
as-is, the shape mismatch surfacing only later inside the query logic. -/
theorem load_graph_fails_only_on_unreadable_source :
    (∃ msg, load_graph Option.none = Except.error msg)
  ∧ (∀ d : RawDoc, load_graph (Option.some d) = Except.ok d) :=
  ⟨⟨_, rfl⟩, fun _ => rfl⟩

lemma chunkIntersects_iff (ids : Finset String) (d : ChunkRecord) :
    chunkIntersects ids d = true ↔ ∃ en ∈ d.entities, en.id ∈ ids := by
  unfold chunkIntersects
  simp [List.any_eq_true, List.mem_map]

lemma find_chunks_ok_characterization (ids : Finset String) :
    ∀ files : List (String × Option ChunkRecord),
      (∀ p ∈ files, p.2 ≠ (Option.none : Option ChunkRecord)) →
      ∃ cs : List AnnotatedChunk,
        find_chunks_with_entities ids files = Except.ok cs
      ∧ (∀ c : AnnotatedChunk, c ∈ cs ↔ ∃ p ∈ files, ∃ d : ChunkRecord,
            p.2 = Option.some d ∧ (∃ en ∈ d.entities, en.id ∈ ids)
            ∧ c = { chunk_id := d.chunk_id, entities := d.entities,
                    relationships := d.relationships, file := p.1 }) := by
  intro files
  induction files with
  | nil =>
    intro _
    exact ⟨[], rfl, by simp⟩
  | cons q rest ih =>
    intro hok
    rcases q with ⟨name, d⟩
    cases d with
    | none => exact absurd rfl (hok (name, Option.none) (List.mem_cons_self _ _))
    | some r =>
      rcases ih (fun p hp => hok p (List.mem_cons_of_mem _ hp)) with ⟨cs, hcs, hmem⟩
      by_cases hint : chunkIntersects ids r = true
      · refine ⟨{ chunk_id := r.chunk_id, entities := r.entities,
                  relationships := r.relationships, file := name } :: cs, ?_, ?_⟩
        · unfold find_chunks_with_entities
          rw [hcs]
          simp [hint]
        · intro c
          rw [List.mem_cons, hmem c]
          constructor
          · rintro (rfl | ⟨p, hp, d', hd', hen, rfl⟩)
            · exact ⟨(name, Option.some r), List.mem_cons_self _ _, r, rfl,
                (chunkIntersects_iff ids r).mp hint, rfl⟩
            · exact ⟨p, List.mem_cons_of_mem _ hp, d', hd', hen, rfl⟩
          · rintro ⟨p, hp, d', hd', hen, rfl⟩
            rcases List.mem_cons.mp hp with rfl | hp'
            · rcases Option.some.injEq .. ▸ hd' with rfl
              exact Or.inl rfl
            · exact Or.inr ⟨p, hp', d', hd', hen, rfl⟩
      · refine ⟨cs, ?_, ?_⟩
        · unfold find_chunks_with_entities
          rw [hcs]
          simp [hint]
        · intro c
          rw [hmem c]
          constructor
          · rintro ⟨p, hp, d', hd', hen, rfl⟩
            exact ⟨p, List.mem_cons_of_mem _ hp, d', hd', hen, rfl⟩
          · rintro ⟨p, hp, d', hd', hen, rfl⟩
            rcases List.mem_cons.mp hp with rfl | hp'
            · rcases Option.some.injEq .. ▸ hd' with rfl
              exact absurd ((chunkIntersects_iff ids r).mpr hen) hint
            · exact ⟨p, hp', d', hd', hen, rfl⟩

/-- C9: when every artifact parses, the chunk locator returns exactly the
chunk records whose entity-id set intersects the expanded id set, each
annotated with its originating file, and whenever the pipeline reaches the
`success` result its embedded chunk list is the first 20 of the locator's
result in locator-return order (pure truncation). -/
theorem chunk_locator_exact_and_result_caps_at_20
    (ids : Finset String) (files : List (String × Option ChunkRecord))
    (hok : ∀ p ∈ files, p.2 ≠ (Option.none : Option ChunkRecord)) :
    ∃ cs : List AnnotatedChunk,
      find_chunks_with_entities ids files = Except.ok cs
    ∧ (∀ c : AnnotatedChunk, c ∈ cs ↔ ∃ p ∈ files, ∃ d : ChunkRecord,
          p.2 = Option.some d ∧ (∃ en ∈ d.entities, en.id ∈ ids)
          ∧ c = { chunk_id := d.chunk_id, entities := d.entities,
                  relationships := d.relationships, file := p.1 })
    ∧ (∀ (query : String) (g : Graph) (dep : Nat),
          search_entities g (tokenize query) ≠ [] →
          get_related_entities g
              ((search_entities g (tokenize query)).map Node.id).toFinset dep = ids →
          run_query query g files dep = Except.ok (QueryResult.success query
            (search_entities g (tokenize query)) ids.card cs.length (cs.take 20)
            (get_subgraph g ids).nodes.length (get_subgraph g ids).edges.length
            (get_subgraph g ids)
            { direct_matches := (search_entities g (tokenize query)).length,
              total_related := ids.card, chunks_found := cs.length,
              search_depth := dep })) := by
  rcases find_chunks_ok_characterization ids files hok with ⟨cs, hcs, hmem⟩
  refine ⟨cs, hcs, hmem, ?_⟩
  intro query g dep hne hids
  have hempty : (search_entities g (tokenize query)).isEmpty = false := by
    cases hse : search_entities g (tokenize query) with
    | nil => exact absurd hse hne
    | cons a l => rfl
  unfold run_query
  simp only [hempty, hids, hcs, Bool.false_eq_true, if_false]

/-- Witness for C9 at a concrete input: the single well-formed artifact of
`sampleFiles` intersects the expanded id set `{A, B, C}`. -/
theorem chunk_locator_exact_and_result_caps_at_20_witness :
    (∀ p ∈ sampleFiles, p.2 ≠ (Option.none : Option ChunkRecord))
  ∧ (∃ cs : List AnnotatedChunk,
      find_chunks_with_entities {"A", "B", "C"} sampleFiles = Except.ok cs
    ∧ (∀ c : AnnotatedChunk, c ∈ cs ↔ ∃ p ∈ sampleFiles, ∃ d : ChunkRecord,
          p.2 = Option.some d
          ∧ (∃ en ∈ d.entities, en.id ∈ ({"A", "B", "C"} : Finset String))
          ∧ c = { chunk_id := d.chunk_id, entities := d.entities,
                  relationships := d.relationships, file := p.1 })
    ∧ (∀ (query : String) (g : Graph) (dep : Nat),
          search_entities g (tokenize query) ≠ [] →
          get_related_entities g
              ((search_entities g (tokenize query)).map Node.id).toFinset dep
            = ({"A", "B", "C"} : Finset String) →
          run_query query g sampleFiles dep = Except.ok (QueryResult.success query
            (search_entities g (tokenize query))
            (({"A", "B", "C"} : Finset String)).card cs.length (cs.take 20)
            (get_subgraph g {"A", "B", "C"}).nodes.length
            (get_subgraph g {"A", "B", "C"}).edges.length
            (get_subgraph g {"A", "B", "C"})
            { direct_matches := (search_entities g (tokenize query)).length,
              total_related := (({"A", "B", "C"} : Finset String)).card,
              chunks_found := cs.length,
              search_depth := dep }))) :=
  ⟨by decide,
   chunk_locator_exact_and_result_caps_at_20 {"A", "B", "C"} sampleFiles (by decide)⟩

end GraphRAG
